import Mathlib

set_option autoImplicit false

/-!
Shallow embedding of the improved-edge-connect repository
(`src/src/dataset.py`, `src/src/networks.py`) and proofs about it.

Images and masks are modelled as rational-valued row-major arrays
(`List (List ℚ)`); external library primitives (scipy `imread`/`imresize`,
skimage `canny`/`rgb2gray`, torch `sqrt`/`tanh`/`sigmoid` and the
initializer's random draws) are passed in as function parameters, and every
random draw consumed by the repository's own code is an explicit argument,
so that the repository's control flow is fully explicit and executable.
-/

/- ===================== dataset.py : Dataset.load_edge ===================== -/

/-- `(1 - mask / 255).astype(np.bool)` from `Dataset.load_edge`
(dataset.py line 97): entry-wise, a pixel is kept (True) iff `1 - v/255`
is nonzero, i.e. the hole pixels (value 255) are dropped. -/
def invertMask (mask : List (List ℚ)) : List (List Bool) :=
  mask.map (fun row => row.map (fun v => decide (1 - v / 255 ≠ 0)))

/-- dataset.py line 97:
`mask = None if self.training else (1 - mask / 255).astype(np.bool)` —
the detection-mask argument that `Dataset.load_edge` hands to `canny`. -/
def cannyMaskArg (training : Bool) (mask : List (List ℚ)) :
    Option (List (List Bool)) :=
  if training then none else some (invertMask mask)

/-- `Dataset.load_edge` (dataset.py lines 92-121).  `Img` is the pixel-array
type; `canny`, `imreadF`, `resizeF`, `mulF`, `zerosLike` and `shapeF` stand
for the external skimage/scipy primitives the method calls, `randSigma` is
the value `random.randint(1, 4)` would return when the random-sigma sentinel
(`sigma == 0`) is configured. -/
def loadEdge {Img : Type}
    (canny : Img → ℚ → Option (List (List Bool)) → Img)
    (imreadF : String → Img)
    (resizeF : Img → ℕ → ℕ → Img)
    (mulF : Img → Img → Img)
    (zerosLike : Img → Img)
    (shapeF : Img → ℕ × ℕ)
    (edgeMode : ℕ) (sigma0 : ℚ) (nmsFlag : ℕ) (training : Bool)
    (edgeData : List String)
    (img : Img) (index : ℕ) (mask : List (List ℚ))
    (randSigma : ℚ) : Img :=
  let maskArg := cannyMaskArg training mask
  if edgeMode = 1 then
    if sigma0 = -1 then zerosLike img
    else
      let sigma := if sigma0 = 0 then randSigma else sigma0
      canny img sigma maskArg
  else
    let imgh := (shapeF img).1
    let imgw := (shapeF img).2
    let edge := resizeF (imreadF (edgeData.getD index "")) imgh imgw
    if nmsFlag = 1 then mulF edge (canny img sigma0 maskArg) else edge

/-- A detector stub that records whether it received a detection mask:
output `[[1]]` when a mask was passed, `[[0]]` when not. -/
def probeCanny : List (List ℚ) → ℚ → Option (List (List Bool)) → List (List ℚ) :=
  fun _ _ m => if m.isSome then [[1]] else [[0]]

/- ===================== dataset.py : Dataset.load_mask ===================== -/

/-- dataset.py lines 127-133: resolution of the two combinator mask ids.
`coin4` models the `np.random.binomial(1, 0.5) == 1` draw used when
`mask_type == 4` (a fair coin), `rand5` models the `np.random.randint(1, 4)`
draw used when `mask_type == 5` (uniform over `{1, 2, 3}`, here `rand5 + 1`). -/
def resolveMaskType (maskType : ℕ) (coin4 : Bool) (rand5 : Fin 3) : ℕ :=
  if maskType = 4 then (if coin4 then 1 else 3)
  else if maskType = 5 then (rand5 : ℕ) + 1
  else maskType

/-- Modelled from the spec: `create_mask` lives in `src/utils.py`, which is
not under `src/`; per spec §4.1 it returns an `h × w` array with values in
`{0, 255}` whose 255-region is an `mh × mw` rectangle at offset `(y, x)`
(top-left), the rectangle being centered when no offset is supplied. -/
def create_mask (w h mw mh : ℕ) (xy : Option (ℕ × ℕ)) : List (List ℚ) :=
  let x := match xy with | some p => p.1 | none => (w - mw) / 2
  let y := match xy with | some p => p.2 | none => (h - mh) / 2
  (List.range h).map (fun i => (List.range w).map (fun j =>
    if y ≤ i ∧ i < y + mh ∧ x ≤ j ∧ j < x + mw then (255 : ℚ) else 0))

/-- `(mask > 0).astype(np.uint8) * 255` (dataset.py lines 149, 157). -/
def threshold255 (img : List (List ℚ)) : List (List ℚ) :=
  img.map (fun row => row.map (fun v => if 0 < v then (255 : ℚ) else 0))

/-- `Dataset.resize` (dataset.py lines 166-178): optional center crop to the
smaller side, then the external `scipy.misc.imresize` (parameter
`imresizeF`). -/
def datasetResize (imresizeF : List (List ℚ) → ℕ → ℕ → List (List ℚ))
    (img : List (List ℚ)) (height width : ℕ) (center_crop : Bool) :
    List (List ℚ) :=
  let h := img.length
  let w := (img.headD []).length
  let cropped :=
    if center_crop ∧ h ≠ w then
      let side := min h w
      let j := (h - side) / 2
      let i := (w - side) / 2
      ((img.drop j).take side).map (fun r => (r.drop i).take side)
    else img
  imresizeF cropped height width

/-- `Dataset.load_mask` (dataset.py lines 123-158).  `imreadF`, `imresizeF`
and `rgb2grayF` are the external scipy/skimage primitives; `halfLeft` models
the `random.random() < 0.5` draw of the half policy, `extIdx` the
`random.randint(0, len(self.mask_data) - 1)` draw of the external policy.
A `mask_type` that matches no branch falls off the end of the Python
function, which implicitly returns `None` — modelled as `none`. -/
def loadMask
    (imreadF : String → List (List ℚ))
    (imresizeF : List (List ℚ) → ℕ → ℕ → List (List ℚ))
    (rgb2grayF : List (List ℚ) → List (List ℚ))
    (maskData : List String)
    (imgh imgw : ℕ)
    (maskType : ℕ)
    (coin4 : Bool) (rand5 : Fin 3) (halfLeft : Bool) (extIdx : ℕ)
    (index : ℕ) : Option (List (List ℚ)) :=
  let mt := resolveMaskType maskType coin4 rand5
  if mt = 1 then
    some (create_mask imgw imgh (imgw / 2) (imgh / 2) none)
  else if mt = 2 then
    some (create_mask imgw imgh (imgw / 2) imgh
      (some (if halfLeft then 0 else imgw / 2, 0)))
  else if mt = 3 then
    some (threshold255
      (datasetResize imresizeF (imreadF (maskData.getD extIdx "")) imgh imgw true))
  else if mt = 6 then
    some (threshold255 (rgb2grayF
      (datasetResize imresizeF (imreadF (maskData.getD index "")) imgh imgw false)))
  else none

/- ================= dataset.py : Dataset.create_iterator ================== -/

/-- Number of batches one `DataLoader` pass yields with `drop_last=True`. -/
def numBatches (n bs : ℕ) : ℕ := n / bs

/-- The `k`-th batch of indices of one `DataLoader` pass.  `create_iterator`
(dataset.py lines 200-205) constructs
`DataLoader(dataset=self, batch_size=batch_size, drop_last=True)` with no
`shuffle` argument, so the default sequential sampler is used: batch `k` is
the `k`-th consecutive run of `bs` indices, and the incomplete trailing
batch is dropped. -/
def passBatch (bs k : ℕ) : List ℕ := (List.range bs).map (fun j => k * bs + j)

/-- The `k`-th batch yielded by the infinite generator
`Dataset.create_iterator` (dataset.py lines 200-205): the `while True` loop
re-runs identical sequential passes, so the stream is periodic with period
`numBatches n bs` (defined when that period is positive; when
`batch_size > n` the generator loops forever yielding nothing). -/
def createIterator (n bs k : ℕ) : List ℕ :=
  passBatch bs (k % numBatches n bs)

/- ==================== networks.py : ILN and RhoClipper ==================== -/

/-- The three learned parameter tensors of `ILN` (networks.py lines 5-14),
one rational per channel (the source shapes them `(1, C, 1, 1)`). -/
structure ILNParams where
  rho : List ℚ
  gamma : List ℚ
  beta : List ℚ
  deriving DecidableEq

/-- `ILN.__init__` (networks.py lines 9-14): `rho.data.fill_(0.0)`,
`gamma.data.fill_(1.0)`, `beta.data.fill_(0.0)`. -/
def mkILN (numFeatures : ℕ) : ILNParams :=
  ⟨List.replicate numFeatures 0, List.replicate numFeatures 1,
    List.replicate numFeatures 0⟩

/-- `RhoClipper.__init__` stores the bounds; the source asserts
`clip_min < clip_max` at construction (networks.py lines 299-302). -/
structure RhoClipper where
  clip_min : ℚ
  clip_max : ℚ

/-- `RhoClipper.__call__` (networks.py lines 304-308): for a module owning a
`rho` parameter, replace it by `rho.clamp(clip_min, clip_max)`, i.e.
entry-wise `min (max w clip_min) clip_max`. -/
def RhoClipper.applyTo (c : RhoClipper) (m : ILNParams) : ILNParams :=
  { m with rho := m.rho.map (fun w => min (max w c.clip_min) c.clip_max) }

/- ================= networks.py : BaseNetwork.init_weights ================= -/

/-- `pat` starts the character list `s`. -/
def startsCh : List Char → List Char → Bool
  | [], _ => true
  | _ :: _, [] => false
  | a :: as, b :: bs => a == b && startsCh as bs

/-- `pat` occurs somewhere in the character list. -/
def occursCh (pat : List Char) : List Char → Bool
  | [] => startsCh pat []
  | c :: rest => startsCh pat (c :: rest) || occursCh pat rest

/-- `classname.find(pat) != -1` on Python strings: `pat` occurs in `s`. -/
def strContains (s pat : String) : Bool := occursCh pat.data s.data

/-- A module as visited by `nn.Module.apply`: its class name together with
the parameter tensors relevant here.  Conv-like/linear/norm layers carry
optional `weight` and `bias`; `rho`, `gamma`, `beta` are the `ILN`
parameters (absent on other layers). -/
structure Layer where
  className : String
  weight : Option (List ℚ)
  bias : Option (List ℚ)
  rho : Option (List ℚ)
  gamma : Option (List ℚ)
  beta : Option (List ℚ)
  deriving DecidableEq

/-- The `ILN` module as a visited `Layer`: class name `"ILN"`, no `weight`
or `bias` attribute, and the construction-time constant parameters of
`ILN.__init__` (networks.py lines 5-14). -/
def ilnLayer (numFeatures : ℕ) : Layer :=
  ⟨"ILN", none, none, some (List.replicate numFeatures 0),
    some (List.replicate numFeatures 1), some (List.replicate numFeatures 0)⟩

/-- `init_func` inside `BaseNetwork.init_weights` (networks.py lines 37-54).
The random draws of `nn.init.normal_` / `xavier` / `kaiming` / `orthogonal`
on a conv/linear weight are the external parameter `newConvWeight`; the
`nn.init.normal_(.., 1.0, gain)` draw on a BatchNorm2d weight is
`newNormWeight`; biases are zeroed with `nn.init.constant_(.., 0.0)`. -/
def initFunc (newConvWeight newNormWeight : List ℚ → List ℚ) (m : Layer) :
    Layer :=
  if m.weight.isSome ∧
      (strContains m.className "Conv" ∨ strContains m.className "Linear") then
    { m with weight := m.weight.map newConvWeight,
             bias := m.bias.map (fun b => b.map (fun _ => 0)) }
  else if strContains m.className "BatchNorm2d" then
    { m with weight := m.weight.map newNormWeight,
             bias := m.bias.map (fun b => b.map (fun _ => 0)) }
  else m

/-- `BaseNetwork.init_weights` = `self.apply(init_func)`: visit every
submodule of the network. -/
def initWeights (newConvWeight newNormWeight : List ℚ → List ℚ)
    (net : List Layer) : List Layer :=
  net.map (initFunc newConvWeight newNormWeight)

/- ================== networks.py : tensor primitives ====================== -/

/-- A single feature map: rows of rationals. -/
abbrev Mat := List (List ℚ)

/-- One sample's activation tensor, channels × height × width.  The batch
dimension of the source is an outer `List.map` over samples and is omitted;
every layer below acts per sample exactly as the source does. -/
abbrev T3 := List Mat

/-- Entry access with numpy-style default 0 outside the stored area. -/
def get2 (m : Mat) (i j : ℕ) : ℚ := (m.getD i []).getD j 0

/-- Build an `h × w` map from an entry formula. -/
def mk2 (h w : ℕ) (f : ℕ → ℕ → ℚ) : Mat :=
  (List.range h).map (fun i => (List.range w).map (f i))

def matH (m : Mat) : ℕ := m.length

def matW (m : Mat) : ℕ := (m.headD []).length

def zeroM (h w : ℕ) : Mat := List.replicate h (List.replicate w 0)

def zeroT (c h w : ℕ) : T3 := List.replicate c (zeroM h w)

def onesM (h w : ℕ) : Mat := List.replicate h (List.replicate w 1)

/-- Entry-wise map over a whole tensor. -/
def mapT3 (f : ℚ → ℚ) (x : T3) : T3 :=
  x.map (fun m => m.map (fun r => r.map f))

/-- All scalar entries of a tensor. -/
def flat3 (x : T3) : List ℚ := x.flatten.flatten

/-- Entry-wise sum of two tensors (`x + y` on same-shape tensors). -/
def addT (x y : T3) : T3 :=
  List.zipWith (fun m1 m2 => List.zipWith (fun r1 r2 => List.zipWith (· + ·) r1 r2) m1 m2) x y

/-- Index reflection used by `nn.ReflectionPad2d`: output index `i` reads
input index `i - p`, reflected at both borders. -/
def reflectIdx (n p i : ℕ) : ℕ :=
  if i < p then p - i
  else if i - p < n then i - p
  else 2 * n - 2 - (i - p)

/-- `nn.ReflectionPad2d(p)` on one channel. -/
def reflectionPad2d (p : ℕ) (m : Mat) : Mat :=
  mk2 (matH m + 2 * p) (matW m + 2 * p)
    (fun i j => get2 m (reflectIdx (matH m) p i) (reflectIdx (matW m) p j))

/-- `nn.ReflectionPad2d(p)` on a tensor. -/
def padT (p : ℕ) (x : T3) : T3 := x.map (reflectionPad2d p)

/-- The zero padding `nn.Conv2d` applies when `padding = p`. -/
def zeroPad2d (p : ℕ) (m : Mat) : Mat :=
  mk2 (matH m + 2 * p) (matW m + 2 * p)
    (fun i j =>
      if p ≤ i ∧ i < matH m + p ∧ p ≤ j ∧ j < matW m + p then
        get2 m (i - p) (j - p)
      else 0)

/-- Weight entry `wght[oc][ic][a][b]` of a conv weight tensor. -/
def wat (wght : List (List Mat)) (oc ic a b : ℕ) : ℚ :=
  get2 ((wght.getD oc []).getD ic []) a b

/-- Output spatial extent of `nn.Conv2d`:
`(n + 2p - dilation*(kernel-1) - 1) / stride + 1`. -/
def convOut (n k s p d : ℕ) : ℕ := (n + 2 * p - (d * (k - 1) + 1)) / s + 1

/-- `nn.Conv2d(in, out, k, stride=s, padding=p, dilation=d)` on one sample:
output channel `oc` at `(y, x)` is the bias plus the dilated correlation of
the kernel with the zero-padded input. -/
def conv2d (k s p d : ℕ) (wght : List (List Mat)) (bias : List ℚ) (x : T3) :
    T3 :=
  let xp := x.map (zeroPad2d p)
  let hout := convOut (matH (x.headD [])) k s p d
  let wout := convOut (matW (x.headD [])) k s p d
  (List.range wght.length).map (fun oc =>
    mk2 hout wout (fun y xx =>
      bias.getD oc 0 +
        ∑ ic ∈ Finset.range xp.length, ∑ a ∈ Finset.range k,
          ∑ b ∈ Finset.range k,
            wat wght oc ic a b *
              get2 (xp.getD ic []) (y * s + a * d) (xx * s + b * d)))

def sumM (m : Mat) : ℚ := (m.map List.sum).sum

/-- Number of entries of a channel, as a rational. -/
def countM (m : Mat) : ℚ := (m.map (fun r => (r.length : ℚ))).sum

/-- `nn.InstanceNorm2d` (`affine=False`, biased variance, `eps = 1e-5`) on
one channel; `sq` is the external square-root primitive. -/
def instanceNormM (sq : ℚ → ℚ) (eps : ℚ) (m : Mat) : Mat :=
  let mean := sumM m / countM m
  let varB := sumM (m.map (List.map (fun v => (v - mean) ^ 2))) / countM m
  m.map (List.map (fun v => (v - mean) / sq (varB + eps)))

def epsIN : ℚ := 1 / 100000

def instanceNorm2d (sq : ℚ → ℚ) (x : T3) : T3 :=
  x.map (instanceNormM sq epsIN)

/-- `nn.ReLU` on a tensor. -/
def reluT (x : T3) : T3 := mapT3 (fun v => max v 0) x

/-- `nn.Upsample(scale_factor=2)` (default nearest mode) on one channel. -/
def upsample2M (m : Mat) : Mat :=
  mk2 (2 * matH m) (2 * matW m) (fun i j => get2 m (i / 2) (j / 2))

def upsample2 (x : T3) : T3 := x.map upsample2M

/-- `ILN.forward` (networks.py lines 16-23) on one sample: per-channel
instance statistics (dims 2,3) and whole-sample layer statistics
(dims 1,2,3), both with `torch.var`'s default unbiased estimator; the two
normalized views are blended with `rho`, scaled by `gamma` and shifted by
`beta` (each per channel).  `sq` is `torch.sqrt`. -/
def ilnForward (sq : ℚ → ℚ) (eps : ℚ) (p : ILNParams) (x : T3) : T3 :=
  let lnCount : ℚ := (x.map countM).sum
  let lnMean : ℚ := (x.map sumM).sum / lnCount
  let lnVar : ℚ :=
    (x.map (fun m => sumM (m.map (List.map (fun v => (v - lnMean) ^ 2))))).sum
      / (lnCount - 1)
  (List.range x.length).map (fun c =>
    let m := x.getD c []
    let inMean := sumM m / countM m
    let inVar :=
      sumM (m.map (List.map (fun v => (v - inMean) ^ 2))) / (countM m - 1)
    m.map (List.map (fun v =>
      (p.rho.getD c 0 * ((v - inMean) / sq (inVar + eps)) +
          (1 - p.rho.getD c 0) * ((v - lnMean) / sq (lnVar + eps))) *
        p.gamma.getD c 0 + p.beta.getD c 0)))

def epsILN : ℚ := 11 / 1000000

/-- Output spatial extent of `nn.ConvTranspose2d`: `(n-1)s + k - 2p`. -/
def convTOut (n k s p : ℕ) : ℕ := (n - 1) * s + k - 2 * p

/-- `nn.ConvTranspose2d(in, out, k, stride=s, padding=p)` on one sample.
The torch weight layout is `(in_channels, out_channels, k, k)`; output
position `(y, x)` collects the kernel taps `(a, b)` whose stride-`s`
preimage `( (y+p-a)/s, (x+p-b)/s )` is an integer grid point of the input. -/
def convTranspose2d (k s p : ℕ) (wght : List (List Mat)) (bias : List ℚ)
    (x : T3) : T3 :=
  let h := matH (x.headD [])
  let w := matW (x.headD [])
  let outC := (wght.headD []).length
  (List.range outC).map (fun oc =>
    mk2 (convTOut h k s p) (convTOut w k s p) (fun y xx =>
      bias.getD oc 0 +
        ∑ ic ∈ Finset.range x.length, ∑ a ∈ Finset.range k,
          ∑ b ∈ Finset.range k,
            (if a ≤ y + p ∧ (y + p - a) % s = 0 ∧ (y + p - a) / s < h ∧
                b ≤ xx + p ∧ (xx + p - b) % s = 0 ∧ (xx + p - b) / s < w then
              wat wght ic oc a b *
                get2 (x.getD ic []) ((y + p - a) / s) ((xx + p - b) / s)
            else 0)))

/-- `torch.chunk(x, 3, dim=1)[1]`: the second of three channel chunks of
size `⌈c/3⌉`. -/
def chunkSecond (x : T3) : T3 :=
  let s := (x.length + 2) / 3
  (x.drop s).take s

/- ===================== networks.py : ResBlock ============================ -/

/-- The learned weights of one `ResBlock` (networks.py lines 258-284): two
3×3 convolutions with their biases (bias `[]` models `bias=False` under
spectral normalization; `conv2d` reads absent biases as 0). -/
structure ResW where
  w1 : List (List Mat)
  b1 : List ℚ
  w2 : List (List Mat)
  b2 : List ℚ

/-- `ResBlock.forward` (networks.py lines 286-289): `x + conv_block(x)` with
`conv_block = ReflectionPad2d(dilation); Conv2d(dim, dim, 3,
dilation=dilation); InstanceNorm2d; ReLU; ReflectionPad2d(1);
Conv2d(dim, dim, 3); InstanceNorm2d` — no activation after the add. -/
def resBlockForward (sq : ℚ → ℚ) (dilation : ℕ) (wb : ResW) (x : T3) : T3 :=
  let y := padT dilation x
  let y := conv2d 3 1 0 dilation wb.w1 wb.b1 y
  let y := instanceNorm2d sq y
  let y := reluT y
  let y := padT 1 y
  let y := conv2d 3 1 0 1 wb.w2 wb.b2 y
  let y := instanceNorm2d sq y
  addT x y

/- ============== networks.py : InpaintGenerator / EdgeGenerator =========== -/

/-- One convolution layer's weights: kernel tensor and bias vector.  For the
spectral-normalized layers these are the effective weights after the
`nn.utils.spectral_norm` reparametrization. -/
structure ConvW where
  w : List (List Mat)
  b : List ℚ

/-- All weights of `InpaintGenerator` (networks.py lines 59-92): encoder
convs 4→64 (k7), 64→128 (k4 s2 p1), 128→256 (k4 s2 p1); `residual_blocks`
ResBlocks at dilation 2; decoder transposed convs 256→128 and 128→64
(k4 s2 p1) and the final 64→3 conv (k7). -/
structure InpaintW where
  e1 : ConvW
  e2 : ConvW
  e3 : ConvW
  blocks : List ResW
  d1 : ConvW
  d2 : ConvW
  d3 : ConvW

/-- `self.middle`: the stacked residual blocks, each at dilation 2. -/
def middleForward (sq : ℚ → ℚ) (blocks : List ResW) (x : T3) : T3 :=
  blocks.foldl (fun y wb => resBlockForward sq 2 wb y) x

/-- `InpaintGenerator.encoder`. -/
def inpaintEncoder (sq : ℚ → ℚ) (W : InpaintW) (x : T3) : T3 :=
  let y := padT 3 x
  let y := conv2d 7 1 0 1 W.e1.w W.e1.b y
  let y := reluT (instanceNorm2d sq y)
  let y := conv2d 4 2 1 1 W.e2.w W.e2.b y
  let y := reluT (instanceNorm2d sq y)
  let y := conv2d 4 2 1 1 W.e3.w W.e3.b y
  reluT (instanceNorm2d sq y)

/-- `InpaintGenerator.decoder`. -/
def inpaintDecoder (sq : ℚ → ℚ) (W : InpaintW) (x : T3) : T3 :=
  let y := convTranspose2d 4 2 1 W.d1.w W.d1.b x
  let y := reluT (instanceNorm2d sq y)
  let y := convTranspose2d 4 2 1 W.d2.w W.d2.b y
  let y := reluT (instanceNorm2d sq y)
  let y := padT 3 y
  conv2d 7 1 0 1 W.d3.w W.d3.b y

/-- `InpaintGenerator.forward` (networks.py lines 94-99):
encoder → middle → decoder, then `x = (torch.tanh(x) + 1) / 2`.
`tanhF` is `torch.tanh`. -/
def inpaintForward (sq tanhF : ℚ → ℚ) (W : InpaintW) (x : T3) : T3 :=
  mapT3 (fun v => (tanhF v + 1) / 2)
    (inpaintDecoder sq W (middleForward sq W.blocks (inpaintEncoder sq W x)))

/-- All weights of `EdgeGenerator` (networks.py lines 102-163): encoder
convs 3→64 (k7, no norm after the first conv), 64→128, 128→256; residual
blocks; the alternate decoder's convs 256→128 and 128→64 (k3 after 2×
upsample and reflection pad) with their `ILN` parameters and final 64→1
conv (k7); and the default decoder's transposed convs with final conv. -/
structure EdgeW where
  e1 : ConvW
  e2 : ConvW
  e3 : ConvW
  blocks : List ResW
  a1 : ConvW
  iln1 : ILNParams
  a2 : ConvW
  iln2 : ILNParams
  a3 : ConvW
  d1 : ConvW
  d2 : ConvW
  d3 : ConvW

/-- `EdgeGenerator.encoder` (networks.py lines 106-120): note the first
stage has no normalization layer. -/
def edgeEncoder (sq : ℚ → ℚ) (W : EdgeW) (x : T3) : T3 :=
  let y := padT 3 x
  let y := conv2d 7 1 0 1 W.e1.w W.e1.b y
  let y := reluT y
  let y := conv2d 4 2 1 1 W.e2.w W.e2.b y
  let y := reluT (instanceNorm2d sq y)
  let y := conv2d 4 2 1 1 W.e3.w W.e3.b y
  reluT (instanceNorm2d sq y)

/-- `EdgeGenerator.alter_decoder` (networks.py lines 126-143): upsample ×2,
reflection pad 1, 3×3 conv, `ILN`, ReLU — twice — then reflection pad 3 and
the final 7×7 conv to one channel. -/
def edgeAlterDecoder (sq : ℚ → ℚ) (W : EdgeW) (x : T3) : T3 :=
  let y := upsample2 x
  let y := padT 1 y
  let y := conv2d 3 1 0 1 W.a1.w W.a1.b y
  let y := reluT (ilnForward sq epsILN W.iln1 y)
  let y := upsample2 y
  let y := padT 1 y
  let y := conv2d 3 1 0 1 W.a2.w W.a2.b y
  let y := reluT (ilnForward sq epsILN W.iln2 y)
  let y := padT 3 y
  conv2d 7 1 0 1 W.a3.w W.a3.b y

/-- `EdgeGenerator.decoder` (networks.py lines 145-160). -/
def edgeDefaultDecoder (sq : ℚ → ℚ) (W : EdgeW) (x : T3) : T3 :=
  let y := convTranspose2d 4 2 1 W.d1.w W.d1.b x
  let y := reluT (instanceNorm2d sq y)
  let y := convTranspose2d 4 2 1 W.d2.w W.d2.b y
  let y := reluT (instanceNorm2d sq y)
  let y := padT 3 y
  conv2d 7 1 0 1 W.d3.w W.d3.b y

/-- `EdgeGenerator.forward` (networks.py lines 165-172): run the encoder,
residual middle and the selected decoder, apply `torch.sigmoid` (`sigm`),
then add `torch.chunk(x_init, 3, dim=1)[1]` — the middle channel chunk of
the original input — to the squashed map. -/
def edgeForward (sq sigm : ℚ → ℚ) (W : EdgeW) (useAlterDecoder : Bool)
    (x : T3) : T3 :=
  let xInit := x
  let y := edgeEncoder sq W x
  let y := middleForward sq W.blocks y
  let y := if useAlterDecoder then edgeAlterDecoder sq W y
           else edgeDefaultDecoder sq W y
  addT (mapT3 sigm y) (chunkSecond xInit)

/- ======================= concrete zero-weight nets ======================= -/

/-- An all-zero conv weight: `outC` output channels, `inC` input channels,
`k × k` kernels, zero bias. -/
def zConvW (outC inC k : ℕ) : ConvW :=
  ⟨List.replicate outC (List.replicate inC (zeroM k k)),
    List.replicate outC 0⟩

/-- A `ResBlock`'s weights with both convolutions all zero. -/
def zResW (dim : ℕ) : ResW :=
  ⟨(zConvW dim dim 3).w, (zConvW dim dim 3).b,
    (zConvW dim dim 3).w, (zConvW dim dim 3).b⟩

/-- An all-zero transposed-conv weight, torch layout `(inC, outC, k, k)`. -/
def zConvTW (inC outC k : ℕ) : ConvW :=
  ⟨List.replicate inC (List.replicate outC (zeroM k k)),
    List.replicate outC 0⟩

/-- `EdgeGenerator` weights with every convolution zero and every `ILN` at
its construction constants — a parameter state reachable by the external
optimizer. -/
def zEdgeW : EdgeW :=
  ⟨zConvW 64 3 7, zConvW 128 64 4, zConvW 256 128 4,
    List.replicate 8 (zResW 256),
    zConvW 128 256 3, mkILN 128, zConvW 64 128 3, mkILN 64, zConvW 1 64 7,
    zConvTW 256 128 4, zConvTW 128 64 4, zConvW 1 64 7⟩

/-- The all-ones 3-channel 4×4 input used to exhibit an `EdgeGenerator`
output entry above 1. -/
def onesInput3 : T3 := List.replicate 3 (onesM 4 4)

/-- `InpaintGenerator` weights with every convolution zero. -/
def zInpaintW : InpaintW :=
  ⟨zConvW 64 4 7, zConvW 128 64 4, zConvW 256 128 4,
    List.replicate 8 (zResW 256), zConvTW 256 128 4, zConvTW 128 64 4,
    zConvW 3 64 7⟩

/-- A 4-channel all-ones 4×4 input (RGB + mask channel). -/
def onesInput4 : T3 := List.replicate 4 (onesM 4 4)

/- ====================== shape predicates ====================== -/

/-- `m` is a rectangular `h × w` channel. -/
def IsRectM (h w : ℕ) (m : Mat) : Prop :=
  m.length = h ∧ ∀ r ∈ m, r.length = w

/-- `x` is a rectangular `c × h × w` tensor. -/
def IsRectT (c h w : ℕ) (x : T3) : Prop :=
  x.length = c ∧ ∀ m ∈ x, IsRectM h w m

instance (h w : ℕ) (m : Mat) : Decidable (IsRectM h w m) := by
  unfold IsRectM; infer_instance

instance (c h w : ℕ) (x : T3) : Decidable (IsRectT c h w x) := by
  unfold IsRectT; infer_instance

/- ============================ theorems ============================ -/

/-- C1, counterexample: the claim says the detector receives the inverted
mask during training and no mask during evaluation.  At the concrete call
below (canny branch, fixed sigma 2, mask `[[0]]`) the probe detector
reports `[[0]]` (no detection mask) in training mode and `[[1]]` (mask
present) in evaluation mode — the opposite of the claim. -/
theorem C1_load_edge_mask_cex :
    loadEdge probeCanny (fun _ => [[0]]) (fun i _ _ => i) (fun a _ => a)
        (fun i => i) (fun _ => (1, 1)) 1 2 0 true [] [[5]] 0 [[(0 : ℚ)]] 2
      = [[0]] ∧
    loadEdge probeCanny (fun _ => [[0]]) (fun i _ _ => i) (fun a _ => a)
        (fun i => i) (fun _ => (1, 1)) 1 2 0 false [] [[5]] 0 [[(0 : ℚ)]] 2
      = [[1]] ∧
    cannyMaskArg true [[(0 : ℚ)]] = none ∧
    (some (invertMask [[(0 : ℚ)]]) : Option (List (List Bool))) ≠ none := by
  refine ⟨by decide, by decide, by decide, by decide⟩

/-- C1, amended: whenever `Dataset.load_edge` runs the detector — in the
canny branch (`edge == 1`, sigma neither the no-edge nor the random
sentinel) or in the external branch's non-max-suppression call — it passes
`None` as detection mask during training and the inverted mask
`(1 - mask/255)` during evaluation. -/
theorem C1_load_edge_mask_amended {Img : Type}
    (canny : Img → ℚ → Option (List (List Bool)) → Img)
    (imreadF : String → Img) (resizeF : Img → ℕ → ℕ → Img)
    (mulF : Img → Img → Img) (zerosLike : Img → Img) (shapeF : Img → ℕ × ℕ)
    (sigma0 : ℚ) (nmsFlag : ℕ) (training : Bool) (edgeData : List String)
    (img : Img) (index : ℕ) (mask : List (List ℚ)) (randSigma : ℚ) :
    (sigma0 ≠ -1 → sigma0 ≠ 0 →
      loadEdge canny imreadF resizeF mulF zerosLike shapeF 1 sigma0 nmsFlag
          training edgeData img index mask randSigma
        = canny img sigma0
            (if training then none else some (invertMask mask))) ∧
    (∀ edgeMode, edgeMode ≠ 1 →
      loadEdge canny imreadF resizeF mulF zerosLike shapeF edgeMode sigma0 1
          training edgeData img index mask randSigma
        = mulF
            (resizeF (imreadF (edgeData.getD index "")) (shapeF img).1
              (shapeF img).2)
            (canny img sigma0
              (if training then none else some (invertMask mask)))) := by
  constructor
  · intro h1 h0
    simp [loadEdge, cannyMaskArg, h1, h0]
  · intro em hem
    simp [loadEdge, cannyMaskArg, hem]

/-- C1, witness: the amended theorem applied at a concrete training-mode
input: the probe detector is called with no detection mask. -/
theorem C1_load_edge_mask_witness :
    loadEdge probeCanny (fun _ => [[0]]) (fun i _ _ => i) (fun a _ => a)
        (fun i => i) (fun _ => (1, 1)) 1 2 0 true [] [[5]] 0 [[(0 : ℚ)]] 2
      = probeCanny [[5]] 2 none := by
  have h := (C1_load_edge_mask_amended probeCanny (fun _ => [[0]])
    (fun i _ _ => i) (fun a _ => a) (fun i => i) (fun _ => (1, 1)) 2 0 true
    [] [[5]] 0 [[(0 : ℚ)]] 2).1 (by norm_num) (by norm_num)
  simpa using h

/-- C2, counterexample: the claim says the sample order is reshuffled on
each pass.  With 5 samples and batch size 2 the stream of yielded batches
is `[0,1], [2,3], [0,1], [2,3], …`: the second pass repeats the first in
the identical ascending index order (the `DataLoader` is built without
`shuffle`, so the embedding consumes no randomness at all). -/
theorem C2_create_iterator_cex :
    [createIterator 5 2 0, createIterator 5 2 1, createIterator 5 2 2,
        createIterator 5 2 3]
      = [[0, 1], [2, 3], [0, 1], [2, 3]] := by decide

/-- C2, amended: for every positive batch size at most the dataset size,
`create_iterator` yields an infinite sequence of batches of exactly
`batch_size` in-range indices, produced by repeated full passes in the
same fixed sequential order (period `n / bs`, no reshuffling), dropping any
incomplete trailing batch. -/
theorem C2_create_iterator_amended (n bs k : ℕ) (hbs : 0 < bs)
    (hn : bs ≤ n) :
    (createIterator n bs k).length = bs ∧
    createIterator n bs (k + numBatches n bs) = createIterator n bs k ∧
    createIterator n bs k
      = (List.range bs).map (fun j => k % numBatches n bs * bs + j) ∧
    ∀ i ∈ createIterator n bs k, i < n := by
  have hnb : 0 < numBatches n bs := by
    have := (Nat.one_le_div_iff hbs).mpr hn
    simpa [numBatches] using this
  refine ⟨by simp [createIterator, passBatch], ?_, rfl, ?_⟩
  · simp [createIterator, Nat.add_mod_right]
  · intro i hi
    simp only [createIterator, passBatch, List.mem_map, List.mem_range] at hi
    obtain ⟨j, hj, rfl⟩ := hi
    have hm : k % numBatches n bs < numBatches n bs := Nat.mod_lt _ hnb
    calc k % numBatches n bs * bs + j
        < k % numBatches n bs * bs + bs := by omega
      _ = (k % numBatches n bs + 1) * bs := by ring
      _ ≤ numBatches n bs * bs := Nat.mul_le_mul_right bs hm
      _ ≤ n := Nat.div_mul_le_self n bs

/-- C2, witness: the amended theorem at `n = 5`, `bs = 2`, `k = 3`. -/
theorem C2_create_iterator_witness :
    (createIterator 5 2 3).length = 2 ∧
    createIterator 5 2 (3 + numBatches 5 2) = createIterator 5 2 3 ∧
    createIterator 5 2 3
      = (List.range 2).map (fun j => 3 % numBatches 5 2 * 2 + j) ∧
    ∀ i ∈ createIterator 5 2 3, i < 5 :=
  C2_create_iterator_amended 5 2 3 (by norm_num) (by norm_num)

/-- C3, counterexample: with the unrecognized mask policy id 7,
`Dataset.load_mask` silently falls through every branch and returns the
Python value `None` (here `none`) — no unimplemented-configuration error is
raised at construction or at first use. -/
theorem C3_load_mask_fallthrough_cex :
    loadMask (fun _ => [[1]]) (fun m _ _ => m) (fun m => m) ["m.png"] 4 4 7
      true 0 true 0 0 = none := by decide

/-- C3, amended: for every mask policy id outside the recognized set
`{1, 2, 3, 4, 5, 6}`, `Dataset.load_mask` returns `None` silently; nothing
in `Dataset.__init__` or `load_mask` raises an error for such ids. -/
theorem C3_load_mask_fallthrough_amended
    (imreadF : String → List (List ℚ))
    (imresizeF : List (List ℚ) → ℕ → ℕ → List (List ℚ))
    (rgb2grayF : List (List ℚ) → List (List ℚ))
    (maskData : List String) (imgh imgw maskType : ℕ) (coin4 : Bool)
    (rand5 : Fin 3) (halfLeft : Bool) (extIdx index : ℕ)
    (h1 : maskType ≠ 1) (h2 : maskType ≠ 2) (h3 : maskType ≠ 3)
    (h4 : maskType ≠ 4) (h5 : maskType ≠ 5) (h6 : maskType ≠ 6) :
    loadMask imreadF imresizeF rgb2grayF maskData imgh imgw maskType coin4
      rand5 halfLeft extIdx index = none := by
  simp [loadMask, resolveMaskType, h1, h2, h3, h4, h5, h6]

/-- C3, witness: the amended theorem at the concrete unrecognized id 7. -/
theorem C3_load_mask_fallthrough_witness :
    loadMask (fun _ => [[1]]) (fun m _ _ => m) (fun m => m) ["m.png"] 4 4 7
      true 0 true 1 0 = none :=
  C3_load_mask_fallthrough_amended _ _ _ _ _ _ _ _ _ _ _ _ (by norm_num)
    (by norm_num) (by norm_num) (by norm_num) (by norm_num) (by norm_num)

/-- C7: with the deterministic-external policy (mask id 6) the result of
`Dataset.load_mask` does not depend on any of the random draws — two calls
with the same index and the same file contents agree bit for bit — and the
mask produced is the index-th mask file, resized without center crop,
grayscaled, then thresholded to `{0, 255}`. -/
theorem C7_deterministic_external_mask
    (imreadF : String → List (List ℚ))
    (imresizeF : List (List ℚ) → ℕ → ℕ → List (List ℚ))
    (rgb2grayF : List (List ℚ) → List (List ℚ))
    (maskData : List String) (imgh imgw : ℕ) (c1 c2 : Bool) (r1 r2 : Fin 3)
    (l1 l2 : Bool) (e1 e2 index : ℕ) :
    loadMask imreadF imresizeF rgb2grayF maskData imgh imgw 6 c1 r1 l1 e1
        index
      = loadMask imreadF imresizeF rgb2grayF maskData imgh imgw 6 c2 r2 l2
        e2 index ∧
    loadMask imreadF imresizeF rgb2grayF maskData imgh imgw 6 c1 r1 l1 e1
        index
      = some (threshold255 (rgb2grayF (datasetResize imresizeF
          (imreadF (maskData.getD index "")) imgh imgw false))) := by
  constructor <;> simp [loadMask, resolveMaskType]

/-- C8: resolution of the two combinator mask ids.  Id 4 resolves through a
fair coin: of the 2 equiprobable draws, exactly 1 yields random-block (1)
and exactly 1 yields external (3), and no draw yields half (2).  Id 5
resolves through a uniform draw over 3 outcomes, exactly one of which
yields each of random-block, half and external — two distinct selection
schemes. -/
theorem C8_combinator_distributions :
    (∀ r : Fin 3,
      (Finset.univ.filter (fun b : Bool => resolveMaskType 4 b r = 1)).card
          = 1 ∧
      (Finset.univ.filter (fun b : Bool => resolveMaskType 4 b r = 3)).card
          = 1 ∧
      ∀ b : Bool, resolveMaskType 4 b r ≠ 2) ∧
    (Finset.univ : Finset Bool).card = 2 ∧
    (∀ c : Bool,
      (Finset.univ.filter (fun t : Fin 3 => resolveMaskType 5 c t = 1)).card
          = 1 ∧
      (Finset.univ.filter (fun t : Fin 3 => resolveMaskType 5 c t = 2)).card
          = 1 ∧
      (Finset.univ.filter (fun t : Fin 3 => resolveMaskType 5 c t = 3)).card
          = 1) ∧
    (Finset.univ : Finset (Fin 3)).card = 3 := by
  refine ⟨?_, ?_, ?_, ?_⟩ <;> decide

/-- C4: for a `RhoClipper` built with `clip_min < clip_max` (the interval
the source asserts at construction), every entry of the clipped `rho` lies
in `[clip_min, clip_max]` after one application, whatever values the
optimizer wrote, and therefore also after any further application. -/
theorem C4_rho_clipper_range (cmin cmax : ℚ) (hlt : cmin < cmax) :
    (∀ m : ILNParams, ∀ v ∈ ((RhoClipper.mk cmin cmax).applyTo m).rho,
      cmin ≤ v ∧ v ≤ cmax) ∧
    (∀ m : ILNParams,
      ∀ v ∈ ((RhoClipper.mk cmin cmax).applyTo
          ((RhoClipper.mk cmin cmax).applyTo m)).rho,
        cmin ≤ v ∧ v ≤ cmax) := by
  have key : ∀ m : ILNParams,
      ∀ v ∈ ((RhoClipper.mk cmin cmax).applyTo m).rho,
        cmin ≤ v ∧ v ≤ cmax := by
    intro m v hv
    simp only [RhoClipper.applyTo, List.mem_map] at hv
    obtain ⟨w, -, rfl⟩ := hv
    exact ⟨le_min (le_max_right w cmin) hlt.le, min_le_right _ _⟩
  exact ⟨key, fun m => key _⟩

/-- C4, witness: clipping `rho = [5, -3]` into `[0, 1]` puts the entry
clipped from 5 (namely 1) inside the interval. -/
theorem C4_rho_clipper_range_witness :
    (0 : ℚ) < 1 ∧ ((0 : ℚ) ≤ 1 ∧ (1 : ℚ) ≤ 1) :=
  ⟨by norm_num,
    (C4_rho_clipper_range 0 1 (by norm_num)).1 ⟨[5, -3], [], []⟩ 1 (by decide)⟩

/-- C9: `init_func` never touches the `rho`, `gamma`, `beta` parameter
slots of any visited module; it leaves any module with no `weight`
attribute and a class name free of `BatchNorm2d` entirely unchanged; in
particular an `ILN` module passes through `init_weights` untouched, still
carrying its construction-time constants 0, 1 and 0. -/
theorem C9_init_weights_iln_frame (fc fn : List ℚ → List ℚ) :
    (∀ m : Layer, (initFunc fc fn m).rho = m.rho ∧
      (initFunc fc fn m).gamma = m.gamma ∧
      (initFunc fc fn m).beta = m.beta) ∧
    (∀ m : Layer, m.weight = none →
      strContains m.className "BatchNorm2d" = false → initFunc fc fn m = m) ∧
    (∀ n : ℕ, initFunc fc fn (ilnLayer n) = ilnLayer n) ∧
    (∀ n : ℕ, ∀ net : List Layer,
      initWeights fc fn (ilnLayer n :: net)
        = ilnLayer n :: initWeights fc fn net) ∧
    (∀ n : ℕ, (ilnLayer n).rho = some (List.replicate n 0) ∧
      (ilnLayer n).gamma = some (List.replicate n 1) ∧
      (ilnLayer n).beta = some (List.replicate n 0)) := by
  have hfix : ∀ m : Layer, m.weight = none →
      strContains m.className "BatchNorm2d" = false → initFunc fc fn m = m := by
    intro m hw hbn
    unfold initFunc
    rw [if_neg, if_neg]
    · simp [hbn]
    · simp [hw]
  have hBN : strContains "ILN" "BatchNorm2d" = false := by decide
  have hiln : ∀ n : ℕ, initFunc fc fn (ilnLayer n) = ilnLayer n := by
    intro n
    exact hfix _ rfl (by simpa [ilnLayer] using hBN)
  refine ⟨?_, hfix, hiln, ?_, fun n => ⟨rfl, rfl, rfl⟩⟩
  · intro m
    unfold initFunc
    split
    · exact ⟨rfl, rfl, rfl⟩
    · split
      · exact ⟨rfl, rfl, rfl⟩
      · exact ⟨rfl, rfl, rfl⟩
  · intro n net
    simp [initWeights, hiln n]

/- ==================== helper lemmas : lists and zeros ==================== -/

theorem getD_rep {α : Type} (n i : ℕ) (a d : α) :
    (List.replicate n a).getD i d = if i < n then a else d := by
  by_cases h : i < n
  · rw [List.getD_eq_getElem _ _ (by simpa using h)]
    simp [h]
  · rw [List.getD_eq_default _ _ (by simpa using Nat.le_of_not_lt h)]
    simp [h]

theorem get2_nil (i j : ℕ) : get2 [] i j = 0 := rfl

theorem get2_zeroM (h w i j : ℕ) : get2 (zeroM h w) i j = 0 := by
  unfold get2 zeroM
  rw [getD_rep]
  split
  · rw [getD_rep]; split <;> rfl
  · rfl

theorem mk2_congr (h w : ℕ) (f g : ℕ → ℕ → ℚ) (hfg : ∀ i j, f i j = g i j) :
    mk2 h w f = mk2 h w g := by
  unfold mk2
  refine List.map_congr_left (fun i _ => ?_)
  exact List.map_congr_left (fun j _ => hfg i j)

theorem mk2_zero (h w : ℕ) : mk2 h w (fun _ _ => (0 : ℚ)) = zeroM h w := by
  unfold mk2 zeroM
  simp

theorem matH_mk2 (h w : ℕ) (f : ℕ → ℕ → ℚ) : matH (mk2 h w f) = h := by
  simp [matH, mk2]

theorem matH_zeroM (h w : ℕ) : matH (zeroM h w) = h := by simp [matH, zeroM]

theorem matW_zeroM (h w : ℕ) (hh : 0 < h) : matW (zeroM h w) = w := by
  cases h with
  | zero => exact absurd hh (by simp)
  | succ m => simp [matW, zeroM, List.replicate_succ]

theorem rectM_mk2 (h w : ℕ) (f : ℕ → ℕ → ℚ) : IsRectM h w (mk2 h w f) := by
  refine ⟨by simp [mk2], fun r hr => ?_⟩
  simp only [mk2, List.mem_map] at hr
  obtain ⟨i, -, rfl⟩ := hr
  simp

theorem rectM_zeroM (h w : ℕ) : IsRectM h w (zeroM h w) := by
  refine ⟨by simp [zeroM], fun r hr => ?_⟩
  rw [List.eq_of_mem_replicate hr]
  simp

theorem rectT_zeroT (c h w : ℕ) : IsRectT c h w (zeroT c h w) := by
  refine ⟨by simp [zeroT], fun m hm => ?_⟩
  rw [List.eq_of_mem_replicate hm]
  exact rectM_zeroM h w

theorem matW_of_rectM {h w : ℕ} {m : Mat} (hm : IsRectM h w m) (hh : 0 < h) :
    matW m = w := by
  cases m with
  | nil => exact absurd hm.1.symm (by simpa using hh.ne')
  | cons r rs => exact hm.2 r (by simp)

theorem headD_rect {c h w : ℕ} {x : T3} (hx : IsRectT c h w x) (hc : 0 < c) :
    IsRectM h w (x.headD []) := by
  cases x with
  | nil => exact absurd hx.1.symm (by simpa using hc.ne')
  | cons m ms => exact hx.2 m (by simp)

theorem headD_map {α β : Type} (f : α → β) (x : List α) (d : β) (d' : α)
    (hx : x ≠ []) : (x.map f).headD d = f (x.headD d') := by
  cases x with
  | nil => exact absurd rfl hx
  | cons a l => simp

theorem headD_zeroT (c h w : ℕ) (hc : 0 < c) :
    (zeroT c h w).headD [] = zeroM h w := by
  cases c with
  | zero => exact absurd hc (by simp)
  | succ m => simp [zeroT, List.replicate_succ]

theorem zipWith_rep {α β γ : Type} (f : α → β → γ) (a : α) (b : β) :
    ∀ n, List.zipWith f (List.replicate n a) (List.replicate n b)
      = List.replicate n (f a b) := by
  intro n
  induction n with
  | zero => rfl
  | succ m ih => simp [List.replicate_succ, ih]

theorem rowAdd_rep_zero (r : List ℚ) :
    List.zipWith (· + ·) r (List.replicate r.length 0) = r := by
  induction r with
  | nil => rfl
  | cons a l ih => simp [List.replicate_succ, ih]

theorem matAdd_zero {h w : ℕ} (m : Mat) (hm : IsRectM h w m) :
    List.zipWith (fun r1 r2 => List.zipWith (· + ·) r1 r2) m (zeroM h w)
      = m := by
  induction m generalizing h with
  | nil => simp
  | cons r rs ih =>
    obtain ⟨hlen, hrows⟩ := hm
    cases h with
    | zero => exact absurd hlen (by simp)
    | succ h' =>
      have hr : r.length = w := hrows r (by simp)
      have hrs : IsRectM h' w rs :=
        ⟨by simpa using hlen, fun r' hr' => hrows r' (by simp [hr'])⟩
      have hrow : List.zipWith (· + ·) r (List.replicate w 0) = r := by
        rw [← hr]; exact rowAdd_rep_zero r
      simp only [zeroM, List.replicate_succ, List.zipWith_cons_cons]
      rw [hrow]
      have := ih hrs
      simp only [zeroM] at this
      rw [this]

theorem addT_zeroT {c h w : ℕ} (x : T3) (hx : IsRectT c h w x) :
    addT x (zeroT c h w) = x := by
  unfold addT
  induction x generalizing c with
  | nil => simp
  | cons m ms ih =>
    obtain ⟨hlen, hmems⟩ := hx
    cases c with
    | zero => exact absurd hlen (by simp)
    | succ c' =>
      have hms : IsRectT c' h w ms :=
        ⟨by simpa using hlen, fun m' hm' => hmems m' (by simp [hm'])⟩
      simp only [zeroT, List.replicate_succ, List.zipWith_cons_cons]
      rw [matAdd_zero m (hmems m (by simp))]
      have := ih hms
      simp only [zeroT] at this
      rw [this]

theorem addT_zeroT_zeroT (c h w : ℕ) :
    addT (zeroT c h w) (zeroT c h w) = zeroT c h w :=
  addT_zeroT _ (rectT_zeroT c h w)

theorem foldl_rep_fixed {α β : Type} (f : β → α → β) (z : β) (a : α)
    (hfix : f z a = z) : ∀ n, List.foldl f z (List.replicate n a) = z := by
  intro n
  induction n with
  | zero => rfl
  | succ m ih => simp [List.replicate_succ, hfix, ih]

/- ================= helper lemmas : zero propagation ====================== -/

theorem matW_mk2 (h w : ℕ) (f : ℕ → ℕ → ℚ) (hh : 0 < h) :
    matW (mk2 h w f) = w := by
  cases h with
  | zero => exact absurd hh (by simp)
  | succ m => simp [matW, mk2, List.range_succ_eq_map]

theorem getD_rep_zero (n i : ℕ) : (List.replicate n (0 : ℚ)).getD i 0 = 0 := by
  rw [getD_rep]; split <;> rfl

theorem wat_zConv (o c k oc ic a b : ℕ) :
    wat (List.replicate o (List.replicate c (zeroM k k))) oc ic a b = 0 := by
  unfold wat
  rw [getD_rep]
  split
  · rw [getD_rep]
    split
    · exact get2_zeroM k k a b
    · exact get2_nil a b
  · have hnil : (([] : List Mat)).getD ic [] = [] := by
      rw [List.getD_eq_default]
      simp
    rw [hnil]
    exact get2_nil a b

theorem map_range_const {α : Type} (n : ℕ) (F : ℕ → α) (cst : α)
    (hF : ∀ i < n, F i = cst) :
    (List.range n).map F = List.replicate n cst := by
  apply List.ext_getElem
  · simp
  · intro i h1 h2
    simp only [List.getElem_map, List.getElem_range, List.getElem_replicate]
    exact hF i (by simpa using h1)

theorem conv2d_zeroW (k s p d : ℕ) (wght : List (List Mat)) (bias : List ℚ)
    (x : T3) (hw : ∀ oc ic a b, wat wght oc ic a b = 0)
    (hb : ∀ i, bias.getD i 0 = 0) :
    conv2d k s p d wght bias x
      = zeroT wght.length (convOut (matH (x.headD [])) k s p d)
          (convOut (matW (x.headD [])) k s p d) := by
  simp only [conv2d]
  unfold zeroT
  refine map_range_const _ _ _ (fun oc _ => ?_)
  refine Eq.trans (mk2_congr _ _ _ (fun _ _ => (0 : ℚ)) (fun y xx => ?_))
    (mk2_zero _ _)
  rw [hb oc, zero_add]
  refine Finset.sum_eq_zero (fun ic _ => ?_)
  refine Finset.sum_eq_zero (fun a _ => ?_)
  refine Finset.sum_eq_zero (fun b _ => ?_)
  rw [hw oc ic a b, zero_mul]

theorem mapT3_zeroT (f : ℚ → ℚ) (hf : f 0 = 0) (c h w : ℕ) :
    mapT3 f (zeroT c h w) = zeroT c h w := by
  simp [mapT3, zeroT, zeroM, List.map_replicate, hf]

theorem reluT_zeroT (c h w : ℕ) : reluT (zeroT c h w) = zeroT c h w :=
  mapT3_zeroT _ (by norm_num) c h w

theorem sumM_zeroM (h w : ℕ) : sumM (zeroM h w) = 0 := by
  simp [sumM, zeroM, List.map_replicate]

theorem instanceNormM_zeroM (sq : ℚ → ℚ) (eps : ℚ) (h w : ℕ) :
    instanceNormM sq eps (zeroM h w) = zeroM h w := by
  simp only [instanceNormM, sumM_zeroM, zero_div]
  simp [zeroM, List.map_replicate]

theorem instanceNorm2d_zeroT (sq : ℚ → ℚ) (c h w : ℕ) :
    instanceNorm2d sq (zeroT c h w) = zeroT c h w := by
  simp [instanceNorm2d, zeroT, List.map_replicate, instanceNormM_zeroM]

theorem reflectionPad2d_zeroM (p h w : ℕ) (hh : 0 < h) :
    reflectionPad2d p (zeroM h w) = zeroM (h + 2 * p) (w + 2 * p) := by
  unfold reflectionPad2d
  rw [matH_zeroM, matW_zeroM _ _ hh]
  refine Eq.trans (mk2_congr _ _ _ (fun _ _ => (0 : ℚ)) (fun i j => ?_))
    (mk2_zero _ _)
  exact get2_zeroM h w _ _

theorem padT_zeroT (p c h w : ℕ) (hh : 0 < h) :
    padT p (zeroT c h w) = zeroT c (h + 2 * p) (w + 2 * p) := by
  simp [padT, zeroT, List.map_replicate, reflectionPad2d_zeroM p h w hh]

theorem upsample2M_zeroM (h w : ℕ) (hh : 0 < h) :
    upsample2M (zeroM h w) = zeroM (2 * h) (2 * w) := by
  unfold upsample2M
  rw [matH_zeroM, matW_zeroM _ _ hh]
  refine Eq.trans (mk2_congr _ _ _ (fun _ _ => (0 : ℚ)) (fun i j => ?_))
    (mk2_zero _ _)
  exact get2_zeroM h w _ _

theorem upsample2_zeroT (c h w : ℕ) (hh : 0 < h) :
    upsample2 (zeroT c h w) = zeroT c (2 * h) (2 * w) := by
  simp [upsample2, zeroT, List.map_replicate, upsample2M_zeroM h w hh]

theorem ilnForward_mkILN_zeroT (sq : ℚ → ℚ) (eps : ℚ) (n c h w : ℕ) :
    ilnForward sq eps (mkILN n) (zeroT c h w) = zeroT c h w := by
  simp only [ilnForward, mkILN]
  have hlen : (zeroT c h w).length = c := by simp [zeroT]
  rw [hlen]
  refine Eq.trans (map_range_const c _ (zeroM h w) (fun ch hch => ?_)) rfl
  have hget : (zeroT c h w).getD ch [] = zeroM h w := by
    unfold zeroT
    rw [getD_rep]
    exact if_pos hch
  rw [hget]
  have hsums : ((zeroT c h w).map sumM).sum = 0 := by
    simp [zeroT, List.map_replicate, sumM_zeroM]
  rw [hsums, sumM_zeroM]
  simp [zeroM, List.map_replicate, getD_rep_zero, zero_div]

theorem rectT_conv2d (k s p d c h w : ℕ) (wght : List (List Mat))
    (bias : List ℚ) (x : T3) (hx : IsRectT c h w x) (hc : 0 < c)
    (hh : 0 < h) :
    IsRectT wght.length (convOut h k s p d) (convOut w k s p d)
      (conv2d k s p d wght bias x) := by
  have hrm := headD_rect hx hc
  have h1 : matH (x.headD []) = h := hrm.1
  have h2 : matW (x.headD []) = w := matW_of_rectM hrm hh
  refine ⟨by simp [conv2d], fun m hm => ?_⟩
  simp only [conv2d, List.mem_map] at hm
  obtain ⟨oc, -, rfl⟩ := hm
  rw [← h1, ← h2]
  exact rectM_mk2 _ _ _

theorem rectT_padT (p c h w : ℕ) (x : T3) (hx : IsRectT c h w x)
    (hh : 0 < h) : IsRectT c (h + 2 * p) (w + 2 * p) (padT p x) := by
  refine ⟨by simp [padT, hx.1], fun m hm => ?_⟩
  simp only [padT, List.mem_map] at hm
  obtain ⟨m0, hm0, rfl⟩ := hm
  have r0 := hx.2 m0 hm0
  unfold reflectionPad2d
  rw [show matH m0 = h from r0.1, show matW m0 = w from matW_of_rectM r0 hh]
  exact rectM_mk2 _ _ _

theorem rectM_map_rows {h w : ℕ} {m : Mat} (g : ℚ → ℚ) (hm : IsRectM h w m) :
    IsRectM h w (m.map (List.map g)) := by
  refine ⟨by simp [hm.1], fun r hr => ?_⟩
  simp only [List.mem_map] at hr
  obtain ⟨r0, hr0, rfl⟩ := hr
  simp [hm.2 r0 hr0]

theorem rectT_instanceNorm2d (sq : ℚ → ℚ) {c h w : ℕ} {x : T3}
    (hx : IsRectT c h w x) : IsRectT c h w (instanceNorm2d sq x) := by
  refine ⟨by simp [instanceNorm2d, hx.1], fun m hm => ?_⟩
  simp only [instanceNorm2d, List.mem_map] at hm
  obtain ⟨m0, hm0, rfl⟩ := hm
  simp only [instanceNormM]
  exact rectM_map_rows _ (hx.2 m0 hm0)

theorem rectT_mapT3 (f : ℚ → ℚ) {c h w : ℕ} {x : T3}
    (hx : IsRectT c h w x) : IsRectT c h w (mapT3 f x) := by
  refine ⟨by simp [mapT3, hx.1], fun m hm => ?_⟩
  simp only [mapT3, List.mem_map] at hm
  obtain ⟨m0, hm0, rfl⟩ := hm
  exact rectM_map_rows _ (hx.2 m0 hm0)

theorem rectM_addM {h w : ℕ} {m1 m2 : Mat} (h1 : IsRectM h w m1)
    (h2 : IsRectM h w m2) :
    IsRectM h w
      (List.zipWith (fun r1 r2 => List.zipWith (· + ·) r1 r2) m1 m2) := by
  refine ⟨by simp [h1.1, h2.1], fun r hr => ?_⟩
  rw [List.mem_iff_getElem] at hr
  obtain ⟨i, hi, rfl⟩ := hr
  rw [List.getElem_zipWith]
  have hi1 : i < m1.length := by
    simp only [List.length_zipWith] at hi
    omega
  have hi2 : i < m2.length := by
    simp only [List.length_zipWith] at hi
    omega
  simp [List.length_zipWith, h1.2 _ (List.getElem_mem hi1),
    h2.2 _ (List.getElem_mem hi2)]

theorem rectT_addT {c h w : ℕ} {x y : T3} (hx : IsRectT c h w x)
    (hy : IsRectT c h w y) : IsRectT c h w (addT x y) := by
  refine ⟨by simp [addT, hx.1, hy.1], fun m hm => ?_⟩
  rw [List.mem_iff_getElem] at hm
  obtain ⟨i, hi, rfl⟩ := hm
  unfold addT
  rw [List.getElem_zipWith]
  refine rectM_addM (hx.2 _ (List.getElem_mem _)) (hy.2 _ (List.getElem_mem _))

theorem convOut_resblock (h d : ℕ) (hh : 0 < h) :
    convOut (h + 2 * d) 3 1 0 d = h := by
  simp [convOut]
  omega

theorem matH_reflectionPad (p : ℕ) (m : Mat) :
    matH (reflectionPad2d p m) = matH m + 2 * p := by
  simp [reflectionPad2d, matH_mk2]

theorem matW_reflectionPad (p : ℕ) (m : Mat) (hm : 0 < matH m + 2 * p) :
    matW (reflectionPad2d p m) = matW m + 2 * p := by
  unfold reflectionPad2d
  exact matW_mk2 _ _ _ hm

/-- C5: `ResBlock.forward` preserves the input shape, and with all-zero
convolution weights and zero (or absent) biases it is exactly the
identity — the skip connection alone. -/
theorem C5_resblock_shape_identity (sq : ℚ → ℚ) (dil c h w : ℕ) (wb : ResW)
    (x : T3) (hx : IsRectT c h w x) (hc : 0 < c) (hh : 0 < h) (hw : 0 < w)
    (hl1 : wb.w1.length = c) (hl2 : wb.w2.length = c) :
    IsRectT c h w (resBlockForward sq dil wb x) ∧
    ((∀ oc ic a b, wat wb.w1 oc ic a b = 0) → (∀ i, wb.b1.getD i 0 = 0) →
      (∀ oc ic a b, wat wb.w2 oc ic a b = 0) → (∀ i, wb.b2.getD i 0 = 0) →
      resBlockForward sq dil wb x = x) := by
  constructor
  · have s1 := rectT_padT dil c h w x hx hh
    have s2 := rectT_conv2d 3 1 0 dil c (h + 2 * dil) (w + 2 * dil) wb.w1
      wb.b1 (padT dil x) s1 hc (by omega)
    rw [hl1, convOut_resblock h dil hh, convOut_resblock w dil hw] at s2
    have s3 := rectT_instanceNorm2d sq s2
    have s4 : IsRectT c h w
        (reluT (instanceNorm2d sq
          (conv2d 3 1 0 dil wb.w1 wb.b1 (padT dil x)))) :=
      rectT_mapT3 _ s3
    have s5 := rectT_padT 1 c h w _ s4 hh
    have s6 := rectT_conv2d 3 1 0 1 c (h + 2 * 1) (w + 2 * 1) wb.w2 wb.b2 _
      s5 hc (by omega)
    rw [hl2, convOut_resblock h 1 hh, convOut_resblock w 1 hw] at s6
    have s7 := rectT_instanceNorm2d sq s6
    simp only [resBlockForward]
    exact rectT_addT hx s7
  · intro hz1 hb1 hz2 hb2
    have hxne : x ≠ [] := by
      intro hcon
      rw [hcon] at hx
      exact absurd hx.1.symm (by simpa using hc.ne')
    have hhd := headD_rect hx hc
    have hpadhd : (padT dil x).headD [] = reflectionPad2d dil (x.headD []) :=
      headD_map _ x [] [] hxne
    have hmH : matH (x.headD []) = h := hhd.1
    have hmW : matW (x.headD []) = w := matW_of_rectM hhd hh
    have hH1 : matH ((padT dil x).headD []) = h + 2 * dil := by
      rw [hpadhd, matH_reflectionPad, hmH]
    have hW1 : matW ((padT dil x).headD []) = w + 2 * dil := by
      rw [hpadhd, matW_reflectionPad _ _ (by rw [hmH]; omega), hmW]
    have e1 : conv2d 3 1 0 dil wb.w1 wb.b1 (padT dil x) = zeroT c h w := by
      rw [conv2d_zeroW _ _ _ _ _ _ _ hz1 hb1, hH1, hW1, hl1,
        convOut_resblock h dil hh, convOut_resblock w dil hw]
    have e2 : conv2d 3 1 0 1 wb.w2 wb.b2 (zeroT c (h + 2 * 1) (w + 2 * 1))
        = zeroT c h w := by
      rw [conv2d_zeroW _ _ _ _ _ _ _ hz2 hb2, headD_zeroT _ _ _ hc,
        matH_zeroM, matW_zeroM _ _ (by omega), hl2,
        convOut_resblock h 1 hh, convOut_resblock w 1 hw]
    simp only [resBlockForward]
    rw [e1, instanceNorm2d_zeroT, reluT_zeroT, padT_zeroT _ _ _ _ hh, e2,
      instanceNorm2d_zeroT]
    exact addT_zeroT x hx

theorem mem_flat3_mapT3 (f : ℚ → ℚ) (x : T3) (v : ℚ)
    (hv : v ∈ flat3 (mapT3 f x)) : ∃ t, v = f t := by
  simp only [flat3, mapT3, List.mem_flatten, List.mem_map] at hv
  obtain ⟨r, ⟨m, ⟨⟨m0, hm0, rfl⟩, hr⟩⟩, hv⟩ := hv
  simp only [List.mem_map] at hr
  obtain ⟨r0, hr0, rfl⟩ := hr
  simp only [List.mem_map] at hv
  obtain ⟨t, ht, rfl⟩ := hv
  exact ⟨t, rfl⟩

/-- C6: every entry of `InpaintGenerator.forward` lies in `[0, 1]`: the raw
decoder output is squashed by `torch.tanh` (whose values lie in `[-1, 1]`)
and rescaled by `(t + 1) / 2`. -/
theorem C6_inpaint_output_range (sq tanhF : ℚ → ℚ) (W : InpaintW) (x : T3)
    (ht : ∀ t, -1 ≤ tanhF t ∧ tanhF t ≤ 1) :
    ∀ v ∈ flat3 (inpaintForward sq tanhF W x), 0 ≤ v ∧ v ≤ 1 := by
  intro v hv
  simp only [inpaintForward] at hv
  obtain ⟨t, rfl⟩ := mem_flat3_mapT3 _ _ _ hv
  obtain ⟨h1, h2⟩ := ht t
  constructor <;> linarith

/-- C6, witness: the range theorem at a concrete bounded squashing function
and the all-zero inpainting weights on a concrete 4-channel input. -/
theorem C6_inpaint_output_range_witness :
    (∀ t : ℚ, -1 ≤ (fun _ : ℚ => (0 : ℚ)) t ∧ (fun _ : ℚ => (0 : ℚ)) t ≤ 1) ∧
    ∀ v ∈ flat3 (inpaintForward (fun q => q) (fun _ => 0) zInpaintW
        onesInput4), 0 ≤ v ∧ v ≤ 1 :=
  ⟨fun _ => by norm_num,
    C6_inpaint_output_range (fun q => q) (fun _ => 0) zInpaintW onesInput4
      (fun _ => by norm_num)⟩

/-- C5, witness: the shape/identity theorem at a concrete 1×2×2 input with
the all-zero `ResBlock` weights. -/
theorem C5_resblock_witness :
    IsRectT 1 2 2 (resBlockForward (fun q => q) 1 (zResW 1)
        [[[3, 4], [5, 6]]]) ∧
    resBlockForward (fun q => q) 1 (zResW 1) [[[3, 4], [5, 6]]]
      = [[[3, 4], [5, 6]]] := by
  have H := C5_resblock_shape_identity (fun q => q) 1 1 2 2 (zResW 1)
    [[[3, 4], [5, 6]]] (by decide) (by norm_num) (by norm_num) (by norm_num)
    (by decide) (by decide)
  exact ⟨H.1, H.2 (fun oc ic a b => wat_zConv 1 1 3 oc ic a b)
    (fun i => getD_rep_zero 1 i) (fun oc ic a b => wat_zConv 1 1 3 oc ic a b)
    (fun i => getD_rep_zero 1 i)⟩

theorem headD_replicate {α : Type} (n : ℕ) (a d : α) (hn : 0 < n) :
    (List.replicate n a).headD d = a := by
  cases n with
  | zero => exact absurd hn (by simp)
  | succ m => simp [List.replicate_succ]

theorem zConvW_len (o i k : ℕ) : ((zConvW o i k).w).length = o := by
  simp [zConvW]

theorem padT_zeroT_lit (p c h w h' w' : ℕ) (hh : 0 < h)
    (eh : h + 2 * p = h') (ew : w + 2 * p = w') :
    padT p (zeroT c h w) = zeroT c h' w' := by
  rw [padT_zeroT p c h w hh, eh, ew]

theorem upsample2_zeroT_lit (c h w h' w' : ℕ) (hh : 0 < h)
    (eh : 2 * h = h') (ew : 2 * w = w') :
    upsample2 (zeroT c h w) = zeroT c h' w' := by
  rw [upsample2_zeroT c h w hh, eh, ew]

theorem conv2d_zConvW_zeroT_lit (k s p d o i kk c h w h' w' : ℕ)
    (hc : 0 < c) (hh : 0 < h) (eh : convOut h k s p d = h')
    (ew : convOut w k s p d = w') :
    conv2d k s p d (zConvW o i kk).w (zConvW o i kk).b (zeroT c h w)
      = zeroT o h' w' := by
  rw [conv2d_zeroW k s p d (zConvW o i kk).w (zConvW o i kk).b (zeroT c h w)
      (fun oc ic a b => wat_zConv o i kk oc ic a b)
      (fun j => getD_rep_zero o j),
    headD_zeroT _ _ _ hc, matH_zeroM, matW_zeroM _ _ hh, zConvW_len, eh, ew]

theorem resBlock_zResW_zeroT (sq : ℚ → ℚ) (dil c h w : ℕ) (hh : 0 < h)
    (hw : 0 < w) (hc : 0 < c) :
    resBlockForward sq dil (zResW c) (zeroT c h w) = zeroT c h w := by
  simp only [resBlockForward, zResW]
  rw [padT_zeroT _ _ _ _ hh,
    conv2d_zConvW_zeroT_lit 3 1 0 dil c c 3 c (h + 2 * dil) (w + 2 * dil)
      h w hc (by omega) (convOut_resblock h dil hh) (convOut_resblock w dil hw),
    instanceNorm2d_zeroT, reluT_zeroT, padT_zeroT _ _ _ _ hh,
    conv2d_zConvW_zeroT_lit 3 1 0 1 c c 3 c (h + 2 * 1) (w + 2 * 1) h w hc
      (by omega) (convOut_resblock h 1 hh) (convOut_resblock w 1 hw),
    instanceNorm2d_zeroT, addT_zeroT_zeroT]

theorem middle_zResW_zeroT (sq : ℚ → ℚ) (n c h w : ℕ) (hh : 0 < h)
    (hw : 0 < w) (hc : 0 < c) :
    middleForward sq (List.replicate n (zResW c)) (zeroT c h w)
      = zeroT c h w := by
  unfold middleForward
  exact foldl_rep_fixed (fun y wb => resBlockForward sq 2 wb y) (zeroT c h w)
    (zResW c) (resBlock_zResW_zeroT sq 2 c h w hh hw hc) n

theorem edgeEncoder_zEdgeW_ones (sq : ℚ → ℚ) :
    edgeEncoder sq zEdgeW onesInput3 = zeroT 256 1 1 := by
  have hhd3 : (padT 3 onesInput3).headD [] = reflectionPad2d 3 (onesM 4 4) := by
    unfold padT onesInput3
    rw [headD_map _ _ [] [] (by simp), headD_replicate _ _ _ (by norm_num)]
  have e1 : conv2d 7 1 0 1 (zConvW 64 3 7).w (zConvW 64 3 7).b
      (padT 3 onesInput3) = zeroT 64 4 4 := by
    rw [conv2d_zeroW 7 1 0 1 (zConvW 64 3 7).w (zConvW 64 3 7).b
        (padT 3 onesInput3)
        (fun oc ic a b => wat_zConv 64 3 7 oc ic a b)
        (fun j => getD_rep_zero 64 j),
      hhd3, matH_reflectionPad,
      matW_reflectionPad _ _ (by rw [show matH (onesM 4 4) = 4 from rfl]; omega),
      show matH (onesM 4 4) = 4 from rfl,
      show matW (onesM 4 4) = 4 from rfl, zConvW_len,
      show convOut (4 + 2 * 3) 7 1 0 1 = 4 from by decide]
  simp only [edgeEncoder, zEdgeW]
  rw [e1, reluT_zeroT,
    conv2d_zConvW_zeroT_lit 4 2 1 1 128 64 4 64 4 4 2 2 (by norm_num)
      (by norm_num) (by decide) (by decide),
    instanceNorm2d_zeroT, reluT_zeroT,
    conv2d_zConvW_zeroT_lit 4 2 1 1 256 128 4 128 2 2 1 1 (by norm_num)
      (by norm_num) (by decide) (by decide),
    instanceNorm2d_zeroT, reluT_zeroT]

theorem edgeAlterDecoder_zEdgeW_zero (sq : ℚ → ℚ) :
    edgeAlterDecoder sq zEdgeW (zeroT 256 1 1) = zeroT 1 4 4 := by
  simp only [edgeAlterDecoder, zEdgeW]
  rw [upsample2_zeroT_lit 256 1 1 2 2 (by norm_num) (by decide) (by decide),
    padT_zeroT_lit 1 256 2 2 4 4 (by norm_num) (by decide) (by decide),
    conv2d_zConvW_zeroT_lit 3 1 0 1 128 256 3 256 4 4 2 2 (by norm_num)
      (by norm_num) (by decide) (by decide),
    ilnForward_mkILN_zeroT sq epsILN 128 128 2 2, reluT_zeroT,
    upsample2_zeroT_lit 128 2 2 4 4 (by norm_num) (by decide) (by decide),
    padT_zeroT_lit 1 128 4 4 6 6 (by norm_num) (by decide) (by decide),
    conv2d_zConvW_zeroT_lit 3 1 0 1 64 128 3 128 6 6 4 4 (by norm_num)
      (by norm_num) (by decide) (by decide),
    ilnForward_mkILN_zeroT sq epsILN 64 64 4 4, reluT_zeroT,
    padT_zeroT_lit 3 64 4 4 10 10 (by norm_num) (by decide) (by decide),
    conv2d_zConvW_zeroT_lit 7 1 0 1 1 64 7 64 10 10 4 4 (by norm_num)
      (by norm_num) (by decide) (by decide)]

theorem edgeForward_zEdgeW_ones (sq sigm : ℚ → ℚ) :
    edgeForward sq sigm zEdgeW true onesInput3
      = [List.replicate 4 (List.replicate 4 (sigm 0 + 1))] := by
  simp only [edgeForward, if_true]
  rw [edgeEncoder_zEdgeW_ones sq,
    show zEdgeW.blocks = List.replicate 8 (zResW 256) from rfl,
    middle_zResW_zeroT sq 8 256 1 1 (by norm_num) (by norm_num) (by norm_num),
    edgeAlterDecoder_zEdgeW_zero sq,
    show chunkSecond onesInput3 = [onesM 4 4] from rfl,
    show mapT3 sigm (zeroT 1 4 4)
        = [List.replicate 4 (List.replicate 4 (sigm 0))] from by
      simp [mapT3, zeroT, zeroM, List.map_replicate],
    show onesM 4 4 = List.replicate 4 (List.replicate 4 (1 : ℚ)) from rfl]
  have hone : addT [List.replicate 4 (List.replicate 4 (sigm 0))]
      [List.replicate 4 (List.replicate 4 (1 : ℚ))]
      = [List.zipWith (fun r1 r2 => List.zipWith (· + ·) r1 r2)
          (List.replicate 4 (List.replicate 4 (sigm 0)))
          (List.replicate 4 (List.replicate 4 (1 : ℚ)))] := rfl
  rw [hone, zipWith_rep, zipWith_rep]

/-- C10: the `EdgeGenerator` output is not bounded above by 1.  For the
all-ones 3-channel input (entries in `[0, 1]`) and the reachable all-zero
parameter state, the forward pass returns `sigmoid(decoder) + channel 1 of
the input`, whose entries `sigm 0 + 1` exceed 1 because `torch.sigmoid` is
strictly positive — unlike the `InpaintGenerator`, whose output stays in
`[0, 1]`. -/
theorem C10_edge_output_exceeds_one (sq sigm : ℚ → ℚ)
    (hs : ∀ t, 0 < sigm t) :
    ∃ x : T3, (x.length = 3 ∧ ∀ v ∈ flat3 x, 0 ≤ v ∧ v ≤ 1) ∧
      ∃ v ∈ flat3 (edgeForward sq sigm zEdgeW true x), 1 < v := by
  refine ⟨onesInput3, ⟨by decide, by decide⟩, sigm 0 + 1, ?_, by
    have h0 := hs 0
    linarith⟩
  rw [edgeForward_zEdgeW_ones sq sigm]
  simp only [flat3]
  refine List.mem_flatten.mpr ⟨List.replicate 4 (sigm 0 + 1), ?_, by simp⟩
  exact List.mem_flatten.mpr
    ⟨List.replicate 4 (List.replicate 4 (sigm 0 + 1)), by simp, by simp⟩

/-- C10, witness: the theorem applied at a concrete strictly positive
squashing function. -/
theorem C10_edge_output_exceeds_one_witness :
    (∀ t : ℚ, 0 < (fun _ : ℚ => (1 : ℚ)) t) ∧
    ∃ x : T3, (x.length = 3 ∧ ∀ v ∈ flat3 x, 0 ≤ v ∧ v ≤ 1) ∧
      ∃ v ∈ flat3 (edgeForward (fun q => q) (fun _ => 1) zEdgeW true x),
        1 < v :=
  ⟨fun _ => by norm_num,
    C10_edge_output_exceeds_one (fun q => q) (fun _ => 1)
      (fun _ => by norm_num)⟩
